import Mathlib

/-!
Verification of the calendar-notifier event scheduling and coordination core.

The Go source is shallowly embedded: `time.Time` / `time.Duration` values
become `Int` (a count of nanoseconds; only arithmetic comparisons and
subtraction of lead times matter), Go slices become `List`, Go maps become
association lists that preserve insertion order, and the float64 arithmetic
of the retry backoff becomes exact rational arithmetic (`ℚ`), which agrees
with the float computation on every input appearing in the claims.
Go's `sort.Slice` is unstable; it is modelled by a deterministic (stable)
insertion sort with the same `less` function, and every claim settled below
is either insensitive to the order of elements that compare equal or uses
inputs on which the `less` function is a strict total order.
Unicode case folding (`strings.ToLower`) is modelled on ASCII letters,
which covers every string manipulated by the claims.
-/

/-! ## Go string helpers (strings.ToLower / TrimSpace / Fields / Contains) -/

def goToLowerChar (c : Char) : Char :=
  if 'A' ≤ c ∧ c ≤ 'Z' then Char.ofNat (c.toNat + 32) else c

def goToLower (s : String) : String :=
  String.mk (s.data.map goToLowerChar)

def goIsSpace (c : Char) : Bool :=
  c = ' ' || c = '\t' || c = '\n' || c = '\r'

def goTrimSpace (s : String) : String :=
  String.mk (((s.data.dropWhile goIsSpace).reverse.dropWhile goIsSpace).reverse)

/-- Accumulator-based model of `strings.Fields`: split on runs of whitespace. -/
def goFieldsAux : List Char → List Char → List String
  | [], acc => if acc.isEmpty then [] else [String.mk acc.reverse]
  | c :: rest, acc =>
    if goIsSpace c then
      if acc.isEmpty then goFieldsAux rest []
      else String.mk acc.reverse :: goFieldsAux rest []
    else goFieldsAux rest (c :: acc)

def goFields (s : String) : List String := goFieldsAux s.data []

/-- Is the first character list an initial segment of the second? -/
def startsWithChars : List Char → List Char → Bool
  | [], _ => true
  | _ :: _, [] => false
  | a :: as, b :: bs => a = b && startsWithChars as bs

/-- Does the first character list contain the second as a contiguous run?
For valid UTF-8 this coincides with Go's byte-level `strings.Contains`. -/
def charsContain : List Char → List Char → Bool
  | hay, [] => hay.isEmpty || true
  | [], _ :: _ => false
  | a :: as, b :: bs =>
    startsWithChars (b :: bs) (a :: as) || charsContain as (b :: bs)

def goContains (s sub : String) : Bool := charsContain s.data sub.data

/-! ## Data model (internal/models/event.go) -/

structure Alarm where
  leadTimeMinutes : Int
  severity : String
  method : String
deriving DecidableEq, Repr

structure Event where
  id : String
  title : String
  description : String
  startTime : Int
  endTime : Int
  alarms : List Alarm
  calendarId : String
  calendarName : String
  location : String
  createdAt : Int
  modifiedAt : Int
  responseStatus : String
deriving DecidableEq, Repr

structure Notification where
  title : String
  whenTime : Int
  lead : Int
  severity : String
deriving DecidableEq, Repr

def NewNotification (e : Event) (a : Alarm) : Notification :=
  { title := e.title
    whenTime := e.startTime
    lead := a.leadTimeMinutes
    severity := if a.severity = "" then "normal" else a.severity }

/-- Go `Event.IsUpcoming`: the event starts strictly after the given time. -/
def isUpcoming (e : Event) (now : Int) : Bool := now < e.startTime

/-- Go `Event.IsAccepted`: empty response status counts as accepted. -/
def isAccepted (e : Event) : Bool :=
  e.responseStatus = "" || e.responseStatus = "accepted"

/-! ## Event coordinator (pkg/calendar/coordinator.go) -/

structure CoordinatorConfig where
  deduplicationEnabled : Bool
  deduplicationWindow : Int
  priorityProviders : List String
  providerPriorities : List (String × Int)
  mergeStrategies : List (String × String)

/-- The fixed stopword set of `areTitlesSimilar`. -/
def stopwords : List String :=
  ["meeting", "call", "sync", "standup", "the", "a", "an", "and", "or",
   "with", "for", "of", "in", "on"]

/-- A word is skipped when its (byte) length is at most 2 or it is a stopword. -/
def isStopOrShort (w : String) : Bool :=
  w.utf8ByteSize ≤ 2 || stopwords.contains w

/-- Count of meaningful words of the first list that also occur in the second. -/
def countCommonWords (wordsA wordsB : List String) : Nat :=
  (wordsA.filter (fun w => !isStopOrShort w && wordsB.contains w)).length

def countMeaningful (ws : List String) : Nat :=
  (ws.filter (fun w => !isStopOrShort w)).length

/-- Go `areTitlesSimilar`: the float comparison `common/min ≥ 0.7` is modelled
exactly as `10 * common ≥ 7 * min`, which agrees with the float64 comparison
for every feasible word count. -/
def areTitlesSimilar (a b : String) : Bool :=
  if a.utf8ByteSize = 0 || b.utf8ByteSize = 0 then false
  else
    let normA := goToLower (goTrimSpace a)
    let normB := goToLower (goTrimSpace b)
    if normA = normB then true
    else if goContains normA normB || goContains normB normA then true
    else
      let wordsA := goFields normA
      let wordsB := goFields normB
      if wordsA.length = 0 || wordsB.length = 0 then false
      else
        let common := countCommonWords wordsA wordsB
        let mA := countMeaningful wordsA
        let mB := countMeaningful wordsB
        if mA = 0 || mB = 0 then false
        else if common = 0 then false
        else 7 * min mA mB ≤ 10 * common

/-- Go `areEventsSimilar`: same ID, or start times within the window and titles
similar. -/
def areEventsSimilar (cfg : CoordinatorConfig) (a b : Event) : Bool :=
  if a.id = b.id then true
  else
    let timeDiff := a.startTime - b.startTime
    let timeDiff := if timeDiff < 0 then -timeDiff else timeDiff
    if cfg.deduplicationWindow < timeDiff then false
    else
      let titleA := goToLower (goTrimSpace a.title)
      let titleB := goToLower (goTrimSpace b.title)
      if titleA = titleB then true
      else areTitlesSimilar titleA titleB

/-- Go `findSimilarEvents` scans the whole batch (the Go code passes the full
`events` slice, not the unprocessed remainder). -/
def findSimilarEvents (cfg : CoordinatorConfig) (target : Event) :
    List Event → List Event
  | [] => []
  | e :: rest =>
    if areEventsSimilar cfg target e then e :: findSimilarEvents cfg target rest
    else findSimilarEvents cfg target rest

/-- The merge key `fmt.Sprintf("%d-%s-%s", lead, method, severity)`. -/
def alarmKey (a : Alarm) : String :=
  toString a.leadTimeMinutes ++ "-" ++ a.method ++ "-" ++ a.severity

/-- One step of populating `alarmMap`: keep the first alarm for each key. -/
def insertAlarmIfNew (m : List (String × Alarm)) (a : Alarm) :
    List (String × Alarm) :=
  if (m.lookup (alarmKey a)).isSome then m else m ++ [(alarmKey a, a)]

/-- The `alarmMap` of the `merge_alarms` branch, with Go's nondeterministic
map iteration order fixed to insertion order (every claim below only uses
order-insensitive consequences). -/
def collectUniqueAlarms (events : List Event) : List (String × Alarm) :=
  events.foldl (fun m e => e.alarms.foldl insertAlarmIfNew m) []

/-- Stable insertion step for the descending-by-lead alarm sort. -/
def insertAlarmDesc (a : Alarm) : List Alarm → List Alarm
  | [] => [a]
  | b :: rest =>
    if b.leadTimeMinutes < a.leadTimeMinutes then a :: b :: rest
    else b :: insertAlarmDesc a rest

def sortAlarmsDesc (l : List Alarm) : List Alarm :=
  l.foldr insertAlarmDesc []

def joinDash (l : List String) : String := String.intercalate "-" l

/-- Go `mergeEvents`: returns `none` for an empty group (the Go code returns
`nil` there; the caller never passes an empty group). -/
def mergeEvents (cfg : CoordinatorConfig) (events : List Event) : Option Event :=
  match events with
  | [] => none
  | [e] => some e
  | e0 :: _ :: _ =>
    let strategy := (cfg.mergeStrategies.lookup "default").getD ""
    let strategy := if strategy = "" then "keep_first" else strategy
    let alarms :=
      if strategy = "keep_first" then e0.alarms
      else if strategy = "keep_last" then ((events.getLast?).getD e0).alarms
      else if strategy = "merge_alarms" then
        sortAlarmsDesc ((collectUniqueAlarms events).map Prod.snd)
      else e0.alarms
    let merged : Event := { e0 with alarms := alarms }
    let merged := events.foldl (fun m e =>
      let m := if m.description = "" ∧ e.description ≠ "" then
                 { m with description := e.description } else m
      let m := if m.location = "" ∧ e.location ≠ "" then
                 { m with location := e.location } else m
      if m.modifiedAt < e.modifiedAt then { m with modifiedAt := e.modifiedAt }
      else m) merged
    some { merged with id := "merged-" ++ joinDash (events.map (·.id)) }

/-- The walk of `deduplicateEvents`: `all` is the full (priority-sorted)
batch, the first list argument is the not-yet-visited suffix, and
`processed` is the set of already-processed event IDs. -/
def dedupLoop (cfg : CoordinatorConfig) (all : List Event) :
    List Event → List String → List Event
  | [], _ => []
  | e :: rest, processed =>
    if processed.contains e.id then dedupLoop cfg all rest processed
    else
      let similar := findSimilarEvents cfg e all
      if similar.length = 1 then
        e :: dedupLoop cfg all rest (e.id :: processed)
      else
        match mergeEvents cfg similar with
        | some merged =>
          merged :: dedupLoop cfg all rest (similar.map (·.id) ++ processed)
        | none => dedupLoop cfg all rest processed

def deduplicateEvents (cfg : CoordinatorConfig) (events : List Event) :
    List Event :=
  if events.length ≤ 1 then events
  else dedupLoop cfg events events []

/-- The `less` function of `prioritizeEventsByProvider`. -/
def providerLess (cfg : CoordinatorConfig) (a b : Event) : Bool :=
  let pa := goToLower a.calendarName
  let pb := goToLower b.calendarName
  match cfg.providerPriorities.lookup pa, cfg.providerPriorities.lookup pb with
  | some ra, some rb => ra < rb
  | some _, none => true
  | none, some _ => false
  | none, none => pa < pb

/-- Stable insertion step: place `e` before the first element `x` with
`¬ less x e`. -/
def insertSorted (less : Event → Event → Bool) (e : Event) :
    List Event → List Event
  | [] => [e]
  | x :: xs =>
    if less x e then x :: insertSorted less e xs else e :: x :: xs

/-- Deterministic model of `sort.Slice` (see header note on stability). -/
def sortEvents (less : Event → Event → Bool) (l : List Event) : List Event :=
  l.foldr (insertSorted less) []

def startLess (a b : Event) : Bool := a.startTime < b.startTime

/-- Go `CoordinateEvents`: the list of events the caller receives back. -/
def coordinateEvents (cfg : CoordinatorConfig) (events : List Event) :
    List Event :=
  if events.length = 0 then events
  else
    let prioritized := sortEvents (providerLess cfg) events
    let coordinated :=
      if cfg.deduplicationEnabled then deduplicateEvents cfg prioritized
      else prioritized
    sortEvents startLess coordinated

/-- The contents of the caller's `events` slice after `CoordinateEvents`
returns.  `prioritizeEventsByProvider` sorts the input slice in place; when
deduplication is disabled (or the batch has at most one element) the final
start-time sort also runs on the input slice itself, while with
deduplication enabled on two or more events the final sort runs on the
freshly allocated deduplicated slice. -/
def coordinateInputAfter (cfg : CoordinatorConfig) (events : List Event) :
    List Event :=
  if events.length = 0 then events
  else
    let prioritized := sortEvents (providerLess cfg) events
    if cfg.deduplicationEnabled ∧ 1 < events.length then prioritized
    else sortEvents startLess prioritized

/-- Modelled from the spec: deduplication of an alarm list by the exact
triple (LeadTimeMinutes, Method, Severity), keeping first occurrences.  This
is the spec's description of the `merge_alarms` union; the source instead
deduplicates by the string key `alarmKey`. -/
def specDedupByTriple (l : List Alarm) : List Alarm :=
  l.foldl (fun acc a =>
    if acc.any (fun b => b.leadTimeMinutes = a.leadTimeMinutes ∧
        b.method = a.method ∧ b.severity = a.severity) then acc
    else acc ++ [a]) []

/-! ## Event scheduler (pkg/scheduler/scheduler.go)

`scheduleEventNotifications` is the ingest step the event worker runs for
each polled event.  Timer handles are not modelled as OS objects: a pending
notification's timer is armed exactly while its record is in the
`notifications` list, and cancelling the timer is modelled by removing the
record (the Go code always does the two together). -/

structure SchedulerConfig where
  pollInterval : Int
  lookaheadWindow : Int
  defaultLeadTimes : List Int
  finalReminderMinutes : Option Int
  maxConcurrentEvents : Int
  timerBufferSize : Int

structure PendingNotification where
  notification : Notification
  triggerTime : Int
  sent : Bool
deriving DecidableEq, Repr

structure ScheduledEvent where
  event : Event
  notifications : List PendingNotification
  lastUpdated : Int
deriving DecidableEq, Repr

/-- The `scheduledEvents` map, as an association list keyed by event ID. -/
abbrev SchedState := List (String × ScheduledEvent)

/-- Map write `m[k] = v`: replace in place or append. -/
def updateEntry : SchedState → String → ScheduledEvent → SchedState
  | [], k, v => [(k, v)]
  | (k', v') :: rest, k, v =>
    if k' = k then (k, v) :: rest else (k', v') :: updateEntry rest k v

def nsPerMinute : Int := 60000000000

/-- The synthesized alarm used for default lead times and final reminders. -/
def defaultAlarm (lead : Int) : Alarm :=
  { leadTimeMinutes := lead, severity := "normal", method := "popup" }

/-- Which alarms drive the schedule: the event's own alarms, else the
configured default lead times; plus the final reminder when configured and
not already present. -/
def resolveAlarms (cfg : SchedulerConfig) (e : Event) : List Alarm :=
  let alarms := e.alarms
  let alarms :=
    if alarms.length = 0 ∧ 0 < cfg.defaultLeadTimes.length then
      cfg.defaultLeadTimes.map defaultAlarm
    else alarms
  match cfg.finalReminderMinutes with
  | none => alarms
  | some fm =>
    if alarms.any (fun a => a.leadTimeMinutes = fm) then alarms
    else alarms ++ [defaultAlarm fm]

/-- The freshly armed notifications: one per resolved alarm whose trigger
time is still strictly in the future. -/
def buildPending (now : Int) (e : Event) (alarms : List Alarm) :
    List PendingNotification :=
  alarms.filterMap (fun a =>
    let trigger := e.startTime - a.leadTimeMinutes * nsPerMinute
    if trigger ≤ now then none
    else some { notification := NewNotification e a, triggerTime := trigger,
                sent := false })

/-- Go `scheduleEventNotifications` (ingest of one polled event at time `now`). -/
def scheduleEventNotifications (cfg : SchedulerConfig) (now : Int) (e : Event)
    (st : SchedState) : SchedState :=
  if ¬ isUpcoming e now then st
  else if ¬ isAccepted e then st
  else
    let se : ScheduledEvent :=
      match st.lookup e.id with
      | none => { event := e, notifications := [], lastUpdated := now }
      | some old => { old with event := e, lastUpdated := now }
    let st1 := updateEntry st e.id se
    let alarms := resolveAlarms cfg e
    if alarms.length = 0 then st1
    else updateEntry st1 e.id { se with notifications := buildPending now e alarms }

/-- Go `GetScheduledEvents`: the read-lock copy of the map (entry records are
rebuilt field by field, as in the source's shallow copy). -/
def getScheduledEvents (st : SchedState) : SchedState :=
  st.map (fun kv =>
    (kv.1, { event := kv.2.event, notifications := kv.2.notifications,
             lastUpdated := kv.2.lastUpdated }))

/-- A whole history of ingests: each element is (wall-clock time, event). -/
def ingestAll (cfg : SchedulerConfig) (polls : List (Int × Event)) : SchedState :=
  polls.foldl (fun st p => scheduleEventNotifications cfg p.1 p.2 st) []

/-! ## Retry (pkg/retry/retry.go)

Go errors are embedded as an inductive covering every shape the retry layer
distinguishes.  Only `url.Error` has an `Unwrap` method, so `errors.Is` /
`errors.As` chains pass through `urlErr` alone.  `*url.Error` itself
implements `net.Error` (its `Timeout`/`Temporary` methods type-assert the
immediate inner error), so the `errors.As(&netErr)` branch of `isRetriable`
catches every `urlErr` value and the source's explicit `*url.Error`
recursion branch is unreachable; `isRetriable` below compiles that dispatch
per constructor. -/

inductive GoErr where
  | http (statusCode : Int) (status url : String)
  | net (temporary timeout : Bool) (msg : String)
  | urlErr (op url : String) (inner : GoErr)
  | canceled
  | deadlineExceeded
  | generic (msg : String)
deriving DecidableEq, Repr

/-- Go `err.Error()` for each embedded error shape. -/
def errText : GoErr → String
  | .http code status url =>
    "HTTP " ++ toString code ++ ": " ++ status ++ " (URL: " ++ url ++ ")"
  | .net _ _ msg => msg
  | .urlErr op u inner => op ++ " \"" ++ u ++ "\": " ++ errText inner
  | .canceled => "context canceled"
  | .deadlineExceeded => "context deadline exceeded"
  | .generic msg => msg

/-- Go `errors.Is(err, context.Canceled) || errors.Is(err, context.DeadlineExceeded)`. -/
def isContextErr : GoErr → Bool
  | .canceled => true
  | .deadlineExceeded => true
  | .urlErr _ _ inner => isContextErr inner
  | _ => false

/-- Go `errors.As(err, &httpErr)`: first `*HTTPError` in the unwrap chain. -/
def asHTTPStatus : GoErr → Option Int
  | .http code _ _ => some code
  | .urlErr _ _ inner => asHTTPStatus inner
  | _ => none

/-- The value of `Temporary()` on a chain of `url.Error` delegations
(false when the value has no such method). -/
def errTemporary : GoErr → Bool
  | .net t _ _ => t
  | .urlErr _ _ inner => errTemporary inner
  | .deadlineExceeded => true
  | _ => false

/-- The value of `Timeout()`, same convention as `errTemporary`. -/
def errTimeout : GoErr → Bool
  | .net _ o _ => o
  | .urlErr _ _ inner => errTimeout inner
  | .deadlineExceeded => true
  | _ => false

/-- Case-insensitive byte comparison prefix test (`stringContains` inner loop). -/
def ciStartsWith : List Char → List Char → Bool
  | [], _ => true
  | _ :: _, [] => false
  | a :: as, b :: bs =>
    (goToLowerChar b = goToLowerChar a) && ciStartsWith as bs

/-- The scan of Go's `stringContains` helper. -/
def ciContains : List Char → List Char → Bool
  | [], needle => needle.isEmpty
  | c :: rest, needle =>
    ciStartsWith needle (c :: rest) || ciContains rest needle

/-- Go `containsIgnoreCase`: note the source only falls through to the scan when
`len(s) > len(substr)`; equal-length strings must match exactly. -/
def containsIgnoreCase (s sub : String) : Bool :=
  sub.data.length ≤ s.data.length &&
    (s = sub || (sub.data.length < s.data.length && ciContains s.data sub.data))

structure RetryConfig where
  maxAttempts : Nat
  initialDelay : ℚ
  maxDelay : ℚ
  backoffFactor : ℚ
  jitter : Bool
  retriableErrors : List String
  retriableStatuses : List Int

/-- Go `isRetriable`, compiled per error constructor (see the section note on
why the dispatch takes this shape). -/
def isRetriable (cfg : RetryConfig) : GoErr → Bool
  | .canceled => false
  | .deadlineExceeded => false
  | .http code _ _ => cfg.retriableStatuses.contains code
  | .net t o _ => t || o
  | .urlErr _ _ inner =>
    if isContextErr inner then false
    else
      match asHTTPStatus inner with
      | some code => cfg.retriableStatuses.contains code
      | none => errTemporary inner || errTimeout inner
  | .generic msg => cfg.retriableErrors.any (fun p => containsIgnoreCase msg p)

/-- Go `calculateDelay`; `randVal` stands for `rand.Float64()` and is unused
when jitter is off.  Durations are exact rationals (nanoseconds). -/
def calculateDelay (cfg : RetryConfig) (attemptNumber : Nat) (randVal : ℚ) : ℚ :=
  let delay := cfg.initialDelay * cfg.backoffFactor ^ attemptNumber
  let delay := if cfg.maxDelay < delay then cfg.maxDelay else delay
  if cfg.jitter then delay + randVal * (1 / 10) * delay else delay

inductive DoOutcome where
  /-- The operation returned nil on some attempt. -/
  | ok
  /-- Wrapped `non-retriable error: %w`. -/
  | nonRetriableErr (e : GoErr)
  /-- Wrapped `operation failed after %d attempts: %w`. -/
  | exhausted (attempts : Nat) (last : Option GoErr)
deriving DecidableEq, Repr

/-- The observable trace of one `Retryer.Do` run: its outcome, how many
times the operation was invoked, and each pre-attempt sleep as a pair
(attempt number, slept duration). -/
structure DoTrace where
  outcome : DoOutcome
  calls : Nat
  sleeps : List (Nat × ℚ)
deriving DecidableEq, Repr

/-- The attempt loop of `Retryer.Do`.  `ops i` is the error the i-th
invocation of the operation returns (`none` = success) and `rands i` the
jitter draw before attempt `i`.  The context is modelled as never cancelled
(cancellation during backoff is a real-time behaviour outside this
embedding).  `fuel` equals `MaxAttempts - attempt + 1`; the fuel-0 base case
is reached only when `MaxAttempts = 0`, where the Go loop body never runs. -/
def doLoop (cfg : RetryConfig) (ops : Nat → Option GoErr) (rands : Nat → ℚ)
    (attempt : Nat) : Nat → DoTrace
  | 0 => { outcome := .exhausted cfg.maxAttempts none, calls := 0, sleeps := [] }
  | fuel + 1 =>
    let pre : List (Nat × ℚ) :=
      if 1 < attempt then [(attempt, calculateDelay cfg (attempt - 1) (rands attempt))]
      else []
    match ops attempt with
    | none => { outcome := .ok, calls := 1, sleeps := pre }
    | some e =>
      if isRetriable cfg e = false then
        { outcome := .nonRetriableErr e, calls := 1, sleeps := pre }
      else if attempt = cfg.maxAttempts then
        { outcome := .exhausted cfg.maxAttempts (some e), calls := 1, sleeps := pre }
      else
        let rest := doLoop cfg ops rands (attempt + 1) fuel
        { outcome := rest.outcome, calls := rest.calls + 1,
          sleeps := pre ++ rest.sleeps }

def doGo (cfg : RetryConfig) (ops : Nat → Option GoErr) (rands : Nat → ℚ) :
    DoTrace :=
  doLoop cfg ops rands 1 cfg.maxAttempts

/-! ## Circuit breaker (pkg/retry/retry.go, circuit breaker section) -/

inductive CBStateTag where
  | closed
  | opened
  | halfOpen
deriving DecidableEq, Repr

structure CBConfig where
  failureThreshold : Nat
  openTimeout : Int
  successThreshold : Nat

structure CBState where
  state : CBStateTag
  failures : Nat
  successes : Nat
  lastFailure : Int
deriving DecidableEq, Repr

def newCircuitBreaker : CBState :=
  { state := .closed, failures := 0, successes := 0, lastFailure := 0 }

inductive ExecResult where
  /-- The distinct "circuit breaker is open" rejection; the operation was
  not invoked. -/
  | rejected
  /-- The operation ran and returned nil. -/
  | ranOk
  /-- The operation ran and returned its error. -/
  | ranErr
deriving DecidableEq, Repr

/-- Go `CircuitBreaker.Execute` at wall-clock time `now`, where `opErr` says
whether the operation (if invoked) fails. -/
def cbExecute (cfg : CBConfig) (cb : CBState) (now : Int) (opErr : Bool) :
    CBState × ExecResult :=
  let cb :=
    if cb.state = .opened ∧ cfg.openTimeout < now - cb.lastFailure then
      { cb with state := .halfOpen, successes := 0 }
    else cb
  if cb.state = .opened then (cb, .rejected)
  else if opErr then
    let cb := { cb with failures := cb.failures + 1, lastFailure := now }
    let cb :=
      if cb.state = .halfOpen then { cb with state := .opened }
      else if cfg.failureThreshold ≤ cb.failures then { cb with state := .opened }
      else cb
    (cb, .ranErr)
  else
    let cb := { cb with failures := 0, successes := cb.successes + 1 }
    let cb :=
      if cb.state = .halfOpen ∧ cfg.successThreshold ≤ cb.successes then
        { cb with state := .closed }
      else cb
    (cb, .ranOk)

/-! ## Shared lemmas -/

theorem lookup_updateEntry_self (st : SchedState) (k : String) (v : ScheduledEvent) :
    (updateEntry st k v).lookup k = some v := by
  induction st with
  | nil => simp [updateEntry, List.lookup]
  | cons p rest ih =>
    by_cases h : p.1 = k
    · simp [updateEntry, h, List.lookup]
    · have hbeq : (k == p.1) = false := beq_eq_false_iff_ne.mpr (Ne.symm h)
      simp [updateEntry, h, List.lookup, hbeq, ih]

theorem mem_updateEntry (st : SchedState) (k : String) (v : ScheduledEvent)
    (x : String × ScheduledEvent) (hx : x ∈ updateEntry st k v) :
    x = (k, v) ∨ x ∈ st := by
  induction st with
  | nil => simpa [updateEntry] using hx
  | cons p rest ih =>
    by_cases h : p.1 = k
    · simp only [updateEntry, if_pos h, List.mem_cons] at hx
      rcases hx with h1 | h2
      · exact Or.inl h1
      · exact Or.inr (List.mem_cons_of_mem _ h2)
    · simp only [updateEntry, if_neg h, List.mem_cons] at hx
      rcases hx with h1 | h2
      · exact Or.inr (by simp [h1])
      · rcases ih h2 with h3 | h4
        · exact Or.inl h3
        · exact Or.inr (List.mem_cons_of_mem _ h4)

theorem getScheduledEvents_eq (st : SchedState) : getScheduledEvents st = st := by
  unfold getScheduledEvents
  conv_rhs => rw [← List.map_id st]
  exact List.map_congr_left (fun p _ => rfl)

/-- A past event is rejected by ingest: the state is returned unchanged. -/
theorem ingest_rejects_past (cfg : SchedulerConfig) (now : Int) (e : Event)
    (st : SchedState) (h : e.startTime ≤ now) :
    scheduleEventNotifications cfg now e st = st := by
  unfold scheduleEventNotifications
  rw [if_pos]
  simp [isUpcoming]
  omega

/-- Ingest preserves the invariant that every tracked entry was last updated
strictly before its event's start time. -/
theorem ingest_preserves_future (cfg : SchedulerConfig) (now : Int) (e : Event)
    (st : SchedState)
    (hst : ∀ p ∈ st, p.2.lastUpdated < p.2.event.startTime) :
    ∀ p ∈ scheduleEventNotifications cfg now e st,
      p.2.lastUpdated < p.2.event.startTime := by
  unfold scheduleEventNotifications
  by_cases hup : isUpcoming e now
  · by_cases hacc : isAccepted e
    · rw [if_neg (by simpa using hup), if_neg (by simpa using hacc)]
      have hnow : now < e.startTime := by simpa [isUpcoming] using hup
      intro p hp
      set se : ScheduledEvent :=
        match st.lookup e.id with
        | none => { event := e, notifications := [], lastUpdated := now }
        | some old => { old with event := e, lastUpdated := now } with hse
      have hsefields : se.event = e ∧ se.lastUpdated = now := by
        rw [hse]
        cases st.lookup e.id <;> exact ⟨rfl, rfl⟩
      by_cases halarm : (resolveAlarms cfg e).length = 0
      · rw [if_pos halarm] at hp
        rcases mem_updateEntry _ _ _ _ hp with hpe | hpm
        · rw [hpe]
          simpa [hsefields.1, hsefields.2] using hnow
        · exact hst p hpm
      · rw [if_neg halarm] at hp
        rcases mem_updateEntry _ _ _ _ hp with hpe | hpm
        · rw [hpe]
          simpa [hsefields.1, hsefields.2] using hnow
        · rcases mem_updateEntry _ _ _ _ hpm with hpe2 | hpm2
          · rw [hpe2]
            simpa [hsefields.1, hsefields.2] using hnow
          · exact hst p hpm2
    · rw [if_neg (by simpa using hup), if_pos (by simpa using hacc)]
      exact hst
  · rw [if_pos (by simpa using hup)]
    exact hst

theorem ingestAll_future (cfg : SchedulerConfig) (polls : List (Int × Event)) :
    ∀ p ∈ ingestAll cfg polls, p.2.lastUpdated < p.2.event.startTime := by
  have main : ∀ (l : List (Int × Event)) (st : SchedState),
      (∀ p ∈ st, p.2.lastUpdated < p.2.event.startTime) →
      ∀ p ∈ l.foldl (fun st q => scheduleEventNotifications cfg q.1 q.2 st) st,
        p.2.lastUpdated < p.2.event.startTime := by
    intro l
    induction l with
    | nil => intro st hst; simpa using hst
    | cons q rest ih =>
      intro st hst
      exact ih _ (ingest_preserves_future cfg q.1 q.2 st hst)
  exact main polls [] (by simp)

/-! ## Claim C1 -/

def cfgSched0 : SchedulerConfig :=
  { pollInterval := 0, lookaheadWindow := 0, defaultLeadTimes := [],
    finalReminderMinutes := none, maxConcurrentEvents := 0, timerBufferSize := 0 }

def evPast : Event :=
  { id := "a", title := "t", description := "", startTime := 10, endTime := 20,
    alarms := [], calendarId := "", calendarName := "", location := "",
    createdAt := 0, modifiedAt := 0, responseStatus := "" }

/-- Claim C1, counterexample: ingest `evPast` (start time 10) at time 0 — a
legitimate, accepted future event — then query the snapshot at time 20.  The
snapshot still contains the event although its StartTime 10 is ≤ the query
time 20, so an event with `StartTime ≤ now` does appear in
`GetScheduledEvents()` for a later query time `now`. -/
theorem c1_counterexample :
    (getScheduledEvents (scheduleEventNotifications cfgSched0 0 evPast [])).any
      (fun p => decide (p.2.event.startTime ≤ 20)) = true := by decide

/-- Claim C1, amended: an event with `StartTime ≤ now` at the moment of
ingest is rejected (the state is unchanged), and every entry in the
`GetScheduledEvents()` snapshot has `Event.StartTime` strictly greater than
its `LastUpdated` (the time of its last accepted ingest); a tracked event
may however remain in the snapshot after its start time passes. -/
theorem c1_amended :
    (∀ (cfg : SchedulerConfig) (now : Int) (e : Event) (st : SchedState),
        e.startTime ≤ now → scheduleEventNotifications cfg now e st = st) ∧
    (∀ (cfg : SchedulerConfig) (polls : List (Int × Event))
        (p : String × ScheduledEvent),
        p ∈ getScheduledEvents (ingestAll cfg polls) →
        p.2.lastUpdated < p.2.event.startTime) := by
  constructor
  · exact ingest_rejects_past
  · intro cfg polls p hp
    rw [getScheduledEvents_eq] at hp
    exact ingestAll_future cfg polls p hp

/-- Witness for the amended C1 at concrete inputs. -/
theorem c1_amended_witness :
    scheduleEventNotifications cfgSched0 20 evPast [] = [] ∧
    (("a", { event := evPast, notifications := [], lastUpdated := (0:Int) })
        ∈ getScheduledEvents (ingestAll cfgSched0 [(0, evPast)]) →
      (0:Int) < evPast.startTime) := by
  refine ⟨c1_amended.1 cfgSched0 20 evPast [] (by decide), ?_⟩
  intro hmem
  exact c1_amended.2 cfgSched0 [(0, evPast)] _ hmem

/-! ## Claim C10 -/

/-- Claim C10: delivering an already-tracked event ID with a non-empty,
non-accepted response status, or with a start time that is no longer in the
future, leaves the scheduler state entirely unchanged — the tracked
`ScheduledEvent` keeps its `Event` snapshot, `LastUpdated`, and armed
notifications, because both rejection checks run before any state write. -/
theorem c10_ingest_skip_preserves_state (cfg : SchedulerConfig) (now : Int)
    (e : Event) (st : SchedState)
    (_htracked : (st.lookup e.id).isSome)
    (h : (e.responseStatus ≠ "" ∧ e.responseStatus ≠ "accepted") ∨
         e.startTime ≤ now) :
    scheduleEventNotifications cfg now e st = st := by
  rcases h with hstatus | hpast
  · unfold scheduleEventNotifications
    by_cases hup : isUpcoming e now
    · rw [if_neg (by simpa using hup), if_pos]
      simp only [isAccepted, Bool.not_eq_true, Bool.or_eq_false_iff]
      simp [hstatus.1, hstatus.2]
    · rw [if_pos (by simpa using hup)]
  · exact ingest_rejects_past cfg now e st hpast

def evDeclined : Event :=
  { id := "a", title := "t", description := "", startTime := 100, endTime := 200,
    alarms := [], calendarId := "", calendarName := "", location := "",
    createdAt := 0, modifiedAt := 0, responseStatus := "declined" }

def seTracked : ScheduledEvent :=
  { event := evPast, notifications :=
      [{ notification := { title := "t", whenTime := 10, lead := 5,
                           severity := "normal" },
         triggerTime := 7, sent := false }],
    lastUpdated := 0 }

/-- Witness for C10: a tracked entry survives a declined re-delivery intact. -/
theorem c10_witness :
    scheduleEventNotifications cfgSched0 1 evDeclined [("a", seTracked)] =
      [("a", seTracked)] :=
  c10_ingest_skip_preserves_state cfgSched0 1 evDeclined [("a", seTracked)]
    (by decide) (Or.inl (by decide))

/-! ## Claim C9 -/

/-- Claim C9: when the resolved alarm list of a poll is empty, ingest leaves
the tracked event's `Notifications` list exactly as it was — no armed timer
is cancelled and no pending notification is removed (the `Event` snapshot
and `LastUpdated` may still be refreshed). -/
theorem c9_empty_alarms_keep_notifications (cfg : SchedulerConfig) (now : Int)
    (e : Event) (st : SchedState) (se : ScheduledEvent)
    (htracked : st.lookup e.id = some se)
    (halarms : resolveAlarms cfg e = []) :
    ∃ se', (scheduleEventNotifications cfg now e st).lookup e.id = some se' ∧
      se'.notifications = se.notifications := by
  unfold scheduleEventNotifications
  by_cases hup : isUpcoming e now
  · by_cases hacc : isAccepted e
    · rw [if_neg (by simpa using hup), if_neg (by simpa using hacc)]
      rw [htracked]
      rw [if_pos (by simp [halarms])]
      exact ⟨_, lookup_updateEntry_self st e.id _, rfl⟩
    · rw [if_neg (by simpa using hup), if_pos (by simpa using hacc)]
      exact ⟨se, htracked, rfl⟩
  · rw [if_pos (by simpa using hup)]
    exact ⟨se, htracked, rfl⟩

def evNoAlarms : Event :=
  { id := "a", title := "t", description := "", startTime := 100, endTime := 200,
    alarms := [], calendarId := "", calendarName := "", location := "",
    createdAt := 0, modifiedAt := 0, responseStatus := "" }

/-- Witness for C9: the previously armed notification list survives a poll
whose resolved alarm list is empty. -/
theorem c9_witness :
    ∃ se', (scheduleEventNotifications cfgSched0 1 evNoAlarms
        [("a", seTracked)]).lookup "a" = some se' ∧
      se'.notifications = seTracked.notifications := by
  have h := c9_empty_alarms_keep_notifications cfgSched0 1 evNoAlarms
    [("a", seTracked)] seTracked (by decide) (by decide)
  simpa using h

/-! ## Claim C3 -/

theorem insertSorted_perm (less : Event → Event → Bool) (e : Event)
    (l : List Event) : (insertSorted less e l).Perm (e :: l) := by
  induction l with
  | nil => simp [insertSorted]
  | cons x xs ih =>
    by_cases h : less x e
    · simp only [insertSorted, if_pos h]
      exact (ih.cons x).trans (List.Perm.swap e x xs)
    · simp [insertSorted, if_neg h]

theorem sortEvents_perm (less : Event → Event → Bool) (l : List Event) :
    (sortEvents less l).Perm l := by
  induction l with
  | nil => simp [sortEvents]
  | cons x xs ih =>
    have : sortEvents less (x :: xs) = insertSorted less x (sortEvents less xs) := rfl
    rw [this]
    exact (insertSorted_perm less x (sortEvents less xs)).trans (ih.cons x)

/-- Common builder for the concrete coordinator test events. -/
def mkTestEvent (i t : String) (st : Int) (prov : String) (al : List Alarm) :
    Event :=
  { id := i, title := t, description := "", startTime := st, endTime := st + 100,
    alarms := al, calendarId := "", calendarName := prov, location := "",
    createdAt := 0, modifiedAt := 0, responseStatus := "" }

/-- Shared coordinator configuration: dedup on, 300-unit window, three ranked
providers, default strategy keep_first. -/
def cfgP : CoordinatorConfig :=
  { deduplicationEnabled := true, deduplicationWindow := 300,
    priorityProviders := ["p1", "p2", "p3"],
    providerPriorities := [("p1", 1), ("p2", 2), ("p3", 3)],
    mergeStrategies := [("default", "keep_first")] }

def evA : Event := mkTestEvent "a" "m" 1000 "p1" []
def evB : Event := mkTestEvent "b" "m" 700 "p2" []
def evC : Event := mkTestEvent "c" "m" 1300 "p3" []

/-- Claim C3, counterexample: `CoordinateEvents` sorts the caller's slice in
place — after calling it on `[evB, evA]` (provider ranks 2 then 1) the input
slice holds `[evA, evB]`, so the input list's order was mutated. -/
theorem c3_counterexample :
    coordinateInputAfter cfgP [evB, evA] ≠ [evB, evA] := by decide

/-- Claim C3, amended: `CoordinateEvents` never creates, drops, or rewrites
the Event values held by the input slice — its contents after the call are a
permutation of the original — but it does reorder the input slice in place
(and when the input is empty or deduplication is disabled it returns the
input slice itself rather than a fresh list), so the function is not pure in
the claimed sense. -/
theorem c3_amended (cfg : CoordinatorConfig) (events : List Event) :
    (coordinateInputAfter cfg events).Perm events := by
  unfold coordinateInputAfter
  by_cases h0 : events.length = 0
  · simp [h0]
  · rw [if_neg h0]
    by_cases h1 : cfg.deduplicationEnabled ∧ 1 < events.length
    · rw [if_pos h1]
      exact sortEvents_perm _ events
    · rw [if_neg h1]
      exact (sortEvents_perm startLess _).trans (sortEvents_perm _ events)

/-! ## Claim C2 -/

/-- Claim C2, counterexample: with window 300, `evB` (start 700) and `evC`
(start 1300) differ by 600 > 300, yet both land in the similarity group of
anchor `evA` (start 1000, within 300 of each) and are merged into the single
output event `merged-a-b-c`. -/
theorem c2_counterexample :
    (coordinateEvents cfgP [evA, evB, evC]).map (·.id) = ["merged-a-b-c"] ∧
    cfgP.deduplicationWindow < evC.startTime - evB.startTime := by decide

/-- Claim C2, amended: two events with distinct IDs whose start times differ
by more than `DeduplicationWindow` are never judged similar by the pairwise
test `areEventsSimilar`, so neither ever joins a group anchored at the
other; but two such events can still be merged into one output event through
a third anchor event within the window of both, and two events sharing an ID
are grouped regardless of the time difference. -/
theorem c2_amended (cfg : CoordinatorConfig) (a b : Event)
    (hid : a.id ≠ b.id)
    (hwin : cfg.deduplicationWindow < |a.startTime - b.startTime|) :
    areEventsSimilar cfg a b = false := by
  unfold areEventsSimilar
  rw [if_neg hid]
  have habs :
      (if a.startTime - b.startTime < 0 then -(a.startTime - b.startTime)
       else a.startTime - b.startTime) = |a.startTime - b.startTime| := by
    rcases lt_or_le (a.startTime - b.startTime) 0 with h | h
    · rw [if_pos h, abs_of_neg h]
    · rw [if_neg (not_lt.mpr h), abs_of_nonneg h]
  simp only [habs]
  rw [if_pos hwin]

/-- Witness for the amended C2 at concrete inputs: `evB` and `evC` are 600
apart, beyond the 300 window, and are indeed not pairwise similar. -/
theorem c2_amended_witness : areEventsSimilar cfgP evB evC = false :=
  c2_amended cfgP evB evC (by decide) (by decide)

/-! ## Claim C4 -/

def evT1 : Event := mkTestEvent "a" "alpha project" 0 "p1" []
def evT2 : Event := mkTestEvent "b" "alpha beta project" 0 "p2" []
def evT3 : Event := mkTestEvent "c" "beta project" 0 "p3" []

/-- Claim C4, counterexample: `evT2` is similar to both `evT1` and `evT3`,
which are not similar to each other.  The first group (anchor `evT1`) merges
`evT1` and `evT2` and marks both processed; yet the group computed for the
later anchor `evT3` again contains the already-processed `evT2`, so `evT2`
contributes to two output events (`merged-a-b` and `merged-b-c`). -/
theorem c4_counterexample :
    (coordinateEvents cfgP [evT1, evT2, evT3]).map (·.id) =
      ["merged-a-b", "merged-b-c"] ∧
    findSimilarEvents cfgP evT3
      (sortEvents (providerLess cfgP) [evT1, evT2, evT3]) = [evT2, evT3] := by
  decide

theorem findSimilarEvents_eq_filter (cfg : CoordinatorConfig) (target : Event)
    (events : List Event) :
    findSimilarEvents cfg target events =
      events.filter (fun e => areEventsSimilar cfg target e) := by
  induction events with
  | nil => rfl
  | cons e rest ih =>
    by_cases h : areEventsSimilar cfg target e
    · simp [findSimilarEvents, List.filter, h, ih]
    · simp only [Bool.not_eq_true] at h
      simp [findSimilarEvents, List.filter, h, ih]

theorem dedupLoop_length (cfg : CoordinatorConfig) (all : List Event) :
    ∀ (l : List Event) (processed : List String),
      (dedupLoop cfg all l processed).length ≤ l.length := by
  intro l
  induction l with
  | nil => intro processed; simp [dedupLoop]
  | cons e rest ih =>
    intro processed
    unfold dedupLoop
    by_cases hp : processed.contains e.id
    · rw [if_pos hp]
      exact le_trans (ih processed) (Nat.le_succ _)
    · rw [if_neg hp]
      by_cases h1 : (findSimilarEvents cfg e all).length = 1
      · rw [if_pos h1]
        simpa using ih (e.id :: processed)
      · rw [if_neg h1]
        cases hm : mergeEvents cfg (findSimilarEvents cfg e all) with
        | none => exact le_trans (ih processed) (Nat.le_succ _)
        | some merged => simpa using ih _

/-- Claim C4, amended: the similarity group computed for an anchor is the
filter of the whole batch by pairwise similarity to the anchor — including
events already merged into earlier groups — so an input event can contribute
to more than one output event; what does hold is that each batch element
anchors at most one group (anchors with already-processed IDs are skipped),
so deduplication never emits more events than it was given. -/
theorem c4_amended :
    (∀ (cfg : CoordinatorConfig) (target : Event) (events : List Event),
        findSimilarEvents cfg target events =
          events.filter (fun e => areEventsSimilar cfg target e)) ∧
    (∀ (cfg : CoordinatorConfig) (events : List Event),
        (deduplicateEvents cfg events).length ≤ events.length) := by
  refine ⟨findSimilarEvents_eq_filter, ?_⟩
  intro cfg events
  unfold deduplicateEvents
  by_cases h : events.length ≤ 1
  · rw [if_pos h]
  · rw [if_neg h]
    exact dedupLoop_length cfg events events []

/-! ## Claim C5 -/

def cfgM : CoordinatorConfig :=
  { cfgP with mergeStrategies := [("default", "merge_alarms")] }

def almColl1 : Alarm := { leadTimeMinutes := 1, severity := "c", method := "a-b" }
def almColl2 : Alarm := { leadTimeMinutes := 1, severity := "b-c", method := "a" }
def evM1 : Event := mkTestEvent "x" "t1" 0 "p1" [almColl1]
def evM2 : Event := mkTestEvent "y" "t2" 0 "p2" [almColl2]

/-- Claim C5, counterexample: the two group members carry the distinct alarm
triples (1, "a-b", "c") and (1, "a", "b-c"), whose format keys both read
"1-a-b-c"; the merged event keeps only the first alarm, whereas
deduplication by the exact triple would keep both.  So the merged alarm list
does not equal the union deduplicated by the triple. -/
theorem c5_counterexample :
    (mergeEvents cfgM [evM1, evM2]).map (·.alarms) = some [almColl1] ∧
    specDedupByTriple (evM1.alarms ++ evM2.alarms) = [almColl1, almColl2] ∧
    almColl1 ≠ almColl2 := by decide

theorem lookup_none_keys (m : List (String × Alarm)) (k : String)
    (h : (m.lookup k).isSome = false) : ∀ p ∈ m, p.1 ≠ k := by
  induction m with
  | nil => simp
  | cons p rest ih =>
    intro q hq
    by_cases hpk : p.1 = k
    · exfalso
      have : (k == p.1) = true := beq_iff_eq.mpr hpk.symm
      simp [List.lookup, this] at h
    · have hbeq : (k == p.1) = false := beq_eq_false_iff_ne.mpr (fun hk => hpk hk.symm)
      rw [show (p :: rest).lookup k = rest.lookup k by simp [List.lookup, hbeq]] at h
      rcases List.mem_cons.mp hq with rfl | hq'
      · exact hpk
      · exact ih h q hq'

/-- Well-formedness of the alarm map: pairwise-distinct keys, and every
stored key is the key of its value. -/
def alarmMapInv (m : List (String × Alarm)) : Prop :=
  List.Pairwise (fun p q => p.1 ≠ q.1) m ∧ ∀ p ∈ m, p.1 = alarmKey p.2

theorem insertAlarmIfNew_inv (m : List (String × Alarm)) (a : Alarm)
    (h : alarmMapInv m) : alarmMapInv (insertAlarmIfNew m a) := by
  obtain ⟨h1, h2⟩ := h
  unfold insertAlarmIfNew
  by_cases hl : (m.lookup (alarmKey a)).isSome
  · rw [if_pos hl]; exact ⟨h1, h2⟩
  · have hf : (m.lookup (alarmKey a)).isSome = false := Bool.eq_false_iff.mpr hl
    rw [if_neg hl]
    constructor
    · rw [List.pairwise_append]
      refine ⟨h1, List.pairwise_singleton _ _, ?_⟩
      intro p hp q hq
      have hq' : q = (alarmKey a, a) := by simpa using hq
      rw [hq']
      exact lookup_none_keys m (alarmKey a) hf p hp
    · intro p hp
      rcases List.mem_append.mp hp with hp1 | hp2
      · exact h2 p hp1
      · have : p = (alarmKey a, a) := by simpa using hp2
        rw [this]

theorem collectUniqueAlarms_inv (events : List Event) :
    alarmMapInv (collectUniqueAlarms events) := by
  have inner : ∀ (as : List Alarm) (m : List (String × Alarm)),
      alarmMapInv m → alarmMapInv (as.foldl insertAlarmIfNew m) := by
    intro as
    induction as with
    | nil => intro m hm; simpa using hm
    | cons a rest ih =>
      intro m hm
      exact ih _ (insertAlarmIfNew_inv m a hm)
  have outer : ∀ (es : List Event) (m : List (String × Alarm)),
      alarmMapInv m →
      alarmMapInv (es.foldl (fun m e => e.alarms.foldl insertAlarmIfNew m) m) := by
    intro es
    induction es with
    | nil => intro m hm; simpa using hm
    | cons e rest ih =>
      intro m hm
      exact ih _ (inner e.alarms m hm)
  exact outer events [] ⟨List.Pairwise.nil, by simp⟩

theorem mem_insertAlarmDesc (a : Alarm) (l : List Alarm) (x : Alarm)
    (hx : x ∈ insertAlarmDesc a l) : x = a ∨ x ∈ l := by
  induction l with
  | nil => simpa [insertAlarmDesc] using hx
  | cons b rest ih =>
    by_cases h : b.leadTimeMinutes < a.leadTimeMinutes
    · simp only [insertAlarmDesc, if_pos h, List.mem_cons] at hx
      rcases hx with h1 | h2 | h3
      · exact Or.inl h1
      · exact Or.inr (by simp [h2])
      · exact Or.inr (List.mem_cons_of_mem _ h3)
    · simp only [insertAlarmDesc, if_neg h, List.mem_cons] at hx
      rcases hx with h1 | h2
      · exact Or.inr (by simp [h1])
      · rcases ih h2 with h3 | h4
        · exact Or.inl h3
        · exact Or.inr (List.mem_cons_of_mem _ h4)

theorem insertAlarmDesc_pairwise (a : Alarm) (l : List Alarm)
    (h : List.Pairwise (fun x y => y.leadTimeMinutes ≤ x.leadTimeMinutes) l) :
    List.Pairwise (fun x y => y.leadTimeMinutes ≤ x.leadTimeMinutes)
      (insertAlarmDesc a l) := by
  induction l with
  | nil => simp [insertAlarmDesc]
  | cons b rest ih =>
    rw [List.pairwise_cons] at h
    obtain ⟨hb, hrest⟩ := h
    by_cases hlt : b.leadTimeMinutes < a.leadTimeMinutes
    · rw [insertAlarmDesc, if_pos hlt]
      rw [List.pairwise_cons]
      refine ⟨?_, List.pairwise_cons.mpr ⟨hb, hrest⟩⟩
      intro y hy
      rcases List.mem_cons.mp hy with rfl | hy'
      · exact le_of_lt hlt
      · exact le_trans (hb y hy') (le_of_lt hlt)
    · rw [insertAlarmDesc, if_neg hlt]
      rw [List.pairwise_cons]
      refine ⟨?_, ih hrest⟩
      intro y hy
      rcases mem_insertAlarmDesc a rest y hy with rfl | hy'
      · exact le_of_not_lt hlt
      · exact hb y hy'

theorem insertAlarmDesc_perm (a : Alarm) (l : List Alarm) :
    (insertAlarmDesc a l).Perm (a :: l) := by
  induction l with
  | nil => simp [insertAlarmDesc]
  | cons b rest ih =>
    by_cases h : b.leadTimeMinutes < a.leadTimeMinutes
    · simp [insertAlarmDesc, if_pos h]
    · rw [insertAlarmDesc, if_neg h]
      exact (ih.cons b).trans (List.Perm.swap a b rest)

theorem sortAlarmsDesc_perm (l : List Alarm) : (sortAlarmsDesc l).Perm l := by
  induction l with
  | nil => simp [sortAlarmsDesc]
  | cons a rest ih =>
    have : sortAlarmsDesc (a :: rest) = insertAlarmDesc a (sortAlarmsDesc rest) := rfl
    rw [this]
    exact (insertAlarmDesc_perm a (sortAlarmsDesc rest)).trans (ih.cons a)

theorem sortAlarmsDesc_sorted (l : List Alarm) :
    List.Pairwise (fun x y => y.leadTimeMinutes ≤ x.leadTimeMinutes)
      (sortAlarmsDesc l) := by
  induction l with
  | nil => simp [sortAlarmsDesc]
  | cons a rest ih => exact insertAlarmDesc_pairwise a (sortAlarmsDesc rest) ih

theorem foldl_backfill_alarms (events : List Event) (m : Event) :
    (events.foldl (fun m e =>
      let m := if m.description = "" ∧ e.description ≠ "" then
                 { m with description := e.description } else m
      let m := if m.location = "" ∧ e.location ≠ "" then
                 { m with location := e.location } else m
      if m.modifiedAt < e.modifiedAt then { m with modifiedAt := e.modifiedAt }
      else m) m).alarms = m.alarms := by
  induction events generalizing m with
  | nil => rfl
  | cons e rest ih =>
    rw [List.foldl_cons, ih]
    dsimp only
    split_ifs <;> rfl

/-- With the `merge_alarms` strategy selected, the merged event's alarm list
is the descending sort of the values of the key-deduplicated alarm map. -/
theorem mergeEvents_alarms_eq (cfg : CoordinatorConfig) (e1 e2 : Event)
    (rest : List Event)
    (hstrat : cfg.mergeStrategies.lookup "default" = some "merge_alarms") :
    ∃ m, mergeEvents cfg (e1 :: e2 :: rest) = some m ∧
      m.alarms = sortAlarmsDesc
        ((collectUniqueAlarms (e1 :: e2 :: rest)).map Prod.snd) := by
  unfold mergeEvents
  rw [hstrat]
  refine ⟨_, rfl, ?_⟩
  dsimp only
  rw [foldl_backfill_alarms]
  simp

/-- Claim C5, amended: under the `merge_alarms` strategy the merged event's
alarm list is the union of the group's alarms deduplicated by the formatted
string key `lead-method-severity` (first occurrence kept), sorted descending
by `LeadTimeMinutes`; the key coincides with the triple whenever no two
distinct triples format to the same key (the counterexample's hyphenated
method/severity values collide), and the output never holds two alarms with
the same key — in particular no duplicate triples. -/
theorem c5_amended (cfg : CoordinatorConfig) (e1 e2 : Event) (rest : List Event)
    (hstrat : cfg.mergeStrategies.lookup "default" = some "merge_alarms") :
    ∃ m, mergeEvents cfg (e1 :: e2 :: rest) = some m ∧
      m.alarms.Perm ((collectUniqueAlarms (e1 :: e2 :: rest)).map Prod.snd) ∧
      List.Pairwise (fun a b => alarmKey a ≠ alarmKey b) m.alarms ∧
      List.Pairwise (fun a b => b.leadTimeMinutes ≤ a.leadTimeMinutes) m.alarms := by
  obtain ⟨m, hm, halarms⟩ := mergeEvents_alarms_eq cfg e1 e2 rest hstrat
  refine ⟨m, hm, ?_⟩
  set vals := (collectUniqueAlarms (e1 :: e2 :: rest)).map Prod.snd with hvals
  rw [halarms]
  have hperm := sortAlarmsDesc_perm vals
  refine ⟨hperm, ?_, sortAlarmsDesc_sorted vals⟩
  have hinv := collectUniqueAlarms_inv (e1 :: e2 :: rest)
  have hvalsne : List.Pairwise (fun a b => alarmKey a ≠ alarmKey b) vals := by
    rw [hvals, List.pairwise_map]
    refine hinv.1.imp_of_mem ?_
    intro p q hp hq hpq
    rw [← hinv.2 p hp, ← hinv.2 q hq]
    exact hpq
  exact (List.Perm.pairwise_iff (fun h => Ne.symm h) hperm).mpr hvalsne

/-- Witness for the amended C5 at the concrete colliding-alarms group. -/
theorem c5_amended_witness :
    ∃ m, mergeEvents cfgM [evM1, evM2] = some m ∧
      m.alarms.Perm ((collectUniqueAlarms [evM1, evM2]).map Prod.snd) ∧
      List.Pairwise (fun a b => alarmKey a ≠ alarmKey b) m.alarms ∧
      List.Pairwise (fun a b => b.leadTimeMinutes ≤ a.leadTimeMinutes)
        m.alarms :=
  c5_amended cfgM evM1 evM2 [] (by decide)

/-! ## Claim C6 -/

def cbCfg6 : CBConfig :=
  { failureThreshold := 2, openTimeout := 10, successThreshold := 1 }

def cb6s1 : CBState := (cbExecute cbCfg6 newCircuitBreaker 0 true).1
def cb6s2 : CBState := (cbExecute cbCfg6 cb6s1 1 true).1
def cb6s3 : CBState := (cbExecute cbCfg6 cb6s2 5 false).1
def cb6s4 : CBState := (cbExecute cbCfg6 cb6s3 20 false).1

/-- Claim C6, counterexample: run the exact scenario of the claim
(FailureThreshold 2, SuccessThreshold 1): fail at t=0 and t=1 (opens), call
at t=5 (rejected, within OpenTimeout 10), succeed at t=20 (HalfOpen, then
Closed).  The breaker is Closed but the success counter holds 1, not 0 — the
HalfOpen→Closed transition does not reset the success counter. -/
theorem c6_counterexample :
    cb6s2.state = CBStateTag.opened ∧
    (cbExecute cbCfg6 cb6s2 5 true).2 = ExecResult.rejected ∧
    cb6s4.state = CBStateTag.closed ∧ cb6s4.successes ≠ 0 := by decide

/-- Claim C6, amended: with FailureThreshold 2 and SuccessThreshold 1 the
breaker behaves as the claimed three-state machine — two consecutive
failures from Closed open it; while Open and within OpenTimeout of the last
failure every call is rejected with the distinct circuit-open result without
invoking the operation and without touching the state; once more than
OpenTimeout has elapsed the next call runs in HalfOpen; a single success
there flips to Closed and resets the failure counter, but the success
counter is left at 1 (it is zeroed only on the Open→HalfOpen transition);
any failure in HalfOpen immediately reopens the breaker. -/
theorem c6_amended (cfg : CBConfig) (hf : cfg.failureThreshold = 2)
    (hs : cfg.successThreshold = 1) :
    (∀ (cb : CBState) (t₁ t₂ : Int), cb.state = .closed → cb.failures = 0 →
      (cbExecute cfg cb t₁ true).1.state = .closed ∧
      (cbExecute cfg (cbExecute cfg cb t₁ true).1 t₂ true).1.state = .opened) ∧
    (∀ (cb : CBState) (t : Int) (opErr : Bool), cb.state = .opened →
      t - cb.lastFailure ≤ cfg.openTimeout →
      cbExecute cfg cb t opErr = (cb, .rejected)) ∧
    (∀ (cb : CBState) (t : Int), cb.state = .opened →
      cfg.openTimeout < t - cb.lastFailure →
      (cbExecute cfg cb t false).2 = .ranOk ∧
      (cbExecute cfg cb t false).1.state = .closed ∧
      (cbExecute cfg cb t false).1.failures = 0 ∧
      (cbExecute cfg cb t false).1.successes = 1) ∧
    (∀ (cb : CBState) (t : Int), cb.state = .opened →
      cfg.openTimeout < t - cb.lastFailure →
      (cbExecute cfg cb t true).2 = .ranErr ∧
      (cbExecute cfg cb t true).1.state = .opened) ∧
    (∀ (cb : CBState) (t : Int), cb.state = .halfOpen →
      (cbExecute cfg cb t true).1.state = .opened) := by
  refine ⟨?_, ?_, ?_, ?_, ?_⟩
  · intro cb t₁ t₂ hst hf0
    have e1 : cbExecute cfg cb t₁ true =
        ({ cb with failures := 1, lastFailure := t₁ }, .ranErr) := by
      unfold cbExecute
      simp [hst, hf0, hf]
    have e2 : cbExecute cfg { cb with failures := 1, lastFailure := t₁ } t₂ true =
        ({ cb with state := .opened, failures := 2, lastFailure := t₂ },
          .ranErr) := by
      unfold cbExecute
      simp [hst, hf]
    rw [e1]
    exact ⟨hst, by rw [e2]⟩
  · intro cb t opErr hst hnel
    unfold cbExecute
    simp [hst, not_lt.mpr hnel]
  · intro cb t hst hel
    have e : cbExecute cfg cb t false =
        (⟨.closed, 0, 1, cb.lastFailure⟩, .ranOk) := by
      unfold cbExecute
      simp [hst, hel, hs]
    rw [e]
    exact ⟨rfl, rfl, rfl, rfl⟩
  · intro cb t hst hel
    have e : cbExecute cfg cb t true =
        (⟨.opened, cb.failures + 1, 0, t⟩, .ranErr) := by
      unfold cbExecute
      simp [hst, hel]
    rw [e]
    exact ⟨rfl, rfl⟩
  · intro cb t hst
    unfold cbExecute
    simp [hst]

/-- Witness for the amended C6 at the concrete breaker of the scenario. -/
theorem c6_amended_witness :
    (cbExecute cbCfg6 newCircuitBreaker 0 true).1.state = .closed ∧
    (cbExecute cbCfg6 (cbExecute cbCfg6 newCircuitBreaker 0 true).1 1
      true).1.state = .opened :=
  (c6_amended cbCfg6 rfl rfl).1 newCircuitBreaker 0 1 rfl rfl

/-! ## Claim C7 -/

theorem calculateDelay_no_jitter (cfg : RetryConfig) (n : Nat) (r : ℚ)
    (hj : cfg.jitter = false) :
    calculateDelay cfg n r =
      min (cfg.initialDelay * cfg.backoffFactor ^ n) cfg.maxDelay := by
  unfold calculateDelay
  rw [hj]
  simp only [Bool.false_eq_true, if_false]
  rcases le_or_lt (cfg.initialDelay * cfg.backoffFactor ^ n) cfg.maxDelay with h | h
  · rw [if_neg (not_lt.mpr h), min_eq_left h]
  · rw [if_pos h, min_eq_right (le_of_lt h)]

theorem doLoop_sleeps_spec (cfg : RetryConfig) (ops : Nat → Option GoErr)
    (rands : Nat → ℚ) (hj : cfg.jitter = false) :
    ∀ (fuel attempt n : Nat) (d : ℚ),
      (n, d) ∈ (doLoop cfg ops rands attempt fuel).sleeps →
      2 ≤ n ∧
      d = min (cfg.initialDelay * cfg.backoffFactor ^ (n - 1)) cfg.maxDelay := by
  intro fuel
  induction fuel with
  | zero => intro attempt n d h; simp [doLoop] at h
  | succ fuel ih =>
    intro attempt n d h
    have hpre : (n, d) ∈ (if 1 < attempt then
          [(attempt, calculateDelay cfg (attempt - 1) (rands attempt))]
        else ([] : List (Nat × ℚ))) →
        2 ≤ n ∧
        d = min (cfg.initialDelay * cfg.backoffFactor ^ (n - 1)) cfg.maxDelay := by
      intro hmem
      by_cases h1 : 1 < attempt
      · rw [if_pos h1] at hmem
        have heq := List.mem_singleton.mp hmem
        obtain ⟨hn, hd⟩ := Prod.mk.inj heq
        subst hn
        refine ⟨h1, ?_⟩
        rw [hd]
        exact calculateDelay_no_jitter cfg (n - 1) (rands n) hj
      · rw [if_neg h1] at hmem
        simp at hmem
    rcases hops : ops attempt with _ | e
    · have hsl : (doLoop cfg ops rands attempt (fuel + 1)).sleeps =
          (if 1 < attempt then
            [(attempt, calculateDelay cfg (attempt - 1) (rands attempt))]
          else []) := by
        simp [doLoop, hops]
      rw [hsl] at h
      exact hpre h
    · by_cases hret : isRetriable cfg e = false
      · have hsl : (doLoop cfg ops rands attempt (fuel + 1)).sleeps =
            (if 1 < attempt then
              [(attempt, calculateDelay cfg (attempt - 1) (rands attempt))]
            else []) := by
          simp [doLoop, hops, hret]
        rw [hsl] at h
        exact hpre h
      · by_cases hmax : attempt = cfg.maxAttempts
        · subst hmax
          have hsl : (doLoop cfg ops rands cfg.maxAttempts (fuel + 1)).sleeps =
              (if 1 < cfg.maxAttempts then
                [(cfg.maxAttempts,
                  calculateDelay cfg (cfg.maxAttempts - 1)
                    (rands cfg.maxAttempts))]
              else []) := by
            simp [doLoop, hops, hret]
          rw [hsl] at h
          exact hpre h
        · have hsl : (doLoop cfg ops rands attempt (fuel + 1)).sleeps =
              (if 1 < attempt then
                [(attempt, calculateDelay cfg (attempt - 1) (rands attempt))]
              else []) ++ (doLoop cfg ops rands (attempt + 1) fuel).sleeps := by
            simp [doLoop, hops, hret, hmax]
          rw [hsl] at h
          rcases List.mem_append.mp h with h' | h'
          · exact hpre h'
          · exact ih (attempt + 1) n d h'

/-- The test configuration of `TestCalculateDelay`: InitialDelay 1s,
MaxDelay 10s, BackoffFactor 2, jitter off (durations in nanoseconds). -/
def cfgExp : RetryConfig :=
  { maxAttempts := 5, initialDelay := 1000000000, maxDelay := 10000000000,
    backoffFactor := 2, jitter := false, retriableErrors := [],
    retriableStatuses := [] }

/-- Claim C7: with InitialDelay 1s, MaxDelay 10s, BackoffFactor 2 and jitter
off, `calculateDelay` yields 2s, 4s, 8s, 10s, 10s for arguments 1..5; in
general with jitter off `calculateDelay n` equals
min(InitialDelay·BackoffFactor^n, MaxDelay), and every pre-attempt sleep of
`Do` before attempt n > 1 equals
min(InitialDelay·BackoffFactor^(n−1), MaxDelay). -/
theorem c7_backoff_schedule :
    (calculateDelay cfgExp 1 0 = 2000000000 ∧
     calculateDelay cfgExp 2 0 = 4000000000 ∧
     calculateDelay cfgExp 3 0 = 8000000000 ∧
     calculateDelay cfgExp 4 0 = 10000000000 ∧
     calculateDelay cfgExp 5 0 = 10000000000) ∧
    (∀ (cfg : RetryConfig) (n : Nat) (r : ℚ), cfg.jitter = false →
      calculateDelay cfg n r =
        min (cfg.initialDelay * cfg.backoffFactor ^ n) cfg.maxDelay) ∧
    (∀ (cfg : RetryConfig) (ops : Nat → Option GoErr) (rands : Nat → ℚ)
        (n : Nat) (d : ℚ), cfg.jitter = false →
      (n, d) ∈ (doGo cfg ops rands).sleeps →
      2 ≤ n ∧
      d = min (cfg.initialDelay * cfg.backoffFactor ^ (n - 1)) cfg.maxDelay) := by
  refine ⟨?_, calculateDelay_no_jitter, ?_⟩
  · refine ⟨?_, ?_, ?_, ?_, ?_⟩ <;> norm_num [calculateDelay, cfgExp]
  · intro cfg ops rands n d hj h
    exact doLoop_sleeps_spec cfg ops rands hj cfg.maxAttempts 1 n d h

/-- Witness for C7's general clauses at concrete inputs. -/
theorem c7_witness :
    calculateDelay cfgExp 3 0 =
      min (cfgExp.initialDelay * cfgExp.backoffFactor ^ 3) cfgExp.maxDelay :=
  c7_backoff_schedule.2.1 cfgExp 3 0 rfl

/-! ## Claim C8 -/

theorem doLoop_nonretriable (cfg : RetryConfig) (ops : Nat → Option GoErr)
    (rands : Nat → ℚ) :
    ∀ (gap attempt k : Nat) (e : GoErr),
      cfg.maxAttempts = attempt + gap →
      attempt ≤ k → k ≤ cfg.maxAttempts →
      (∀ i, attempt ≤ i → i < k →
        ∃ ei, ops i = some ei ∧ isRetriable cfg ei = true) →
      ops k = some e → isRetriable cfg e = false →
      (doLoop cfg ops rands attempt (gap + 1)).outcome = .nonRetriableErr e ∧
      (doLoop cfg ops rands attempt (gap + 1)).calls = k - attempt + 1 := by
  intro gap
  induction gap with
  | zero =>
    intro attempt k e hmax hak hkm hprev hk hnr
    have hka : k = attempt := by omega
    subst hka
    constructor
    · simp [doLoop, hk, hnr]
    · simp [doLoop, hk, hnr]
  | succ gap ih =>
    intro attempt k e hmax hak hkm hprev hk hnr
    by_cases hke : k = attempt
    · subst hke
      constructor
      · simp [doLoop, hk, hnr]
      · simp [doLoop, hk, hnr]
    · have hlt : attempt < k := lt_of_le_of_ne hak (fun h => hke h.symm)
      obtain ⟨ea, hea, hrea⟩ := hprev attempt (le_refl _) hlt
      have hne : ¬ attempt = cfg.maxAttempts := by omega
      have ho : (doLoop cfg ops rands attempt (gap + 1 + 1)).outcome =
          (doLoop cfg ops rands (attempt + 1) (gap + 1)).outcome := by
        simp [doLoop, hea, hrea, hne]
      have hc : (doLoop cfg ops rands attempt (gap + 1 + 1)).calls =
          (doLoop cfg ops rands (attempt + 1) (gap + 1)).calls + 1 := by
        simp [doLoop, hea, hrea, hne]
      obtain ⟨iho, ihc⟩ := ih (attempt + 1) k e (by omega) (by omega) hkm
        (fun i h1 h2 => hprev i (by omega) h2) hk hnr
      refine ⟨ho.trans iho, ?_⟩
      rw [hc, ihc]
      omega

theorem doLoop_exhausted (cfg : RetryConfig) (ops : Nat → Option GoErr)
    (rands : Nat → ℚ) :
    ∀ (gap attempt : Nat),
      cfg.maxAttempts = attempt + gap → 1 ≤ attempt →
      (∀ i, attempt ≤ i → i ≤ cfg.maxAttempts →
        ∃ ei, ops i = some ei ∧ isRetriable cfg ei = true) →
      (doLoop cfg ops rands attempt (gap + 1)).outcome =
        .exhausted cfg.maxAttempts (ops cfg.maxAttempts) ∧
      (doLoop cfg ops rands attempt (gap + 1)).calls = gap + 1 := by
  intro gap
  induction gap with
  | zero =>
    intro attempt hmax h1 hall
    have hattempt : attempt = cfg.maxAttempts := by omega
    obtain ⟨e, he, hre⟩ := hall attempt (le_refl _) (by omega)
    subst hattempt
    constructor
    · rw [he]
      simp [doLoop, he, hre]
    · simp [doLoop, he, hre]
  | succ gap ih =>
    intro attempt hmax h1 hall
    obtain ⟨ea, hea, hrea⟩ := hall attempt (le_refl _) (by omega)
    have hne : ¬ attempt = cfg.maxAttempts := by omega
    have ho : (doLoop cfg ops rands attempt (gap + 1 + 1)).outcome =
        (doLoop cfg ops rands (attempt + 1) (gap + 1)).outcome := by
      simp [doLoop, hea, hrea, hne]
    have hc : (doLoop cfg ops rands attempt (gap + 1 + 1)).calls =
        (doLoop cfg ops rands (attempt + 1) (gap + 1)).calls + 1 := by
      simp [doLoop, hea, hrea, hne]
    obtain ⟨iho, ihc⟩ := ih (attempt + 1) (by omega) (by omega)
      (fun i hi1 hi2 => hall i (by omega) hi2)
    exact ⟨ho.trans iho, by rw [hc, ihc]⟩

/-- Claim C8: when the attempts before attempt k all fail retriably and
attempt k fails with a non-retriable error, `Do` returns the wrapped
non-retriable error immediately after exactly k invocations — the remaining
attempts are never made; and when all MaxAttempts attempts fail retriably,
`Do` makes exactly MaxAttempts invocations and returns the wrapped error
noting the attempt count together with the last error. -/
theorem c8_do_error_handling :
    (∀ (cfg : RetryConfig) (ops : Nat → Option GoErr) (rands : Nat → ℚ)
        (k : Nat) (e : GoErr),
      1 ≤ k → k ≤ cfg.maxAttempts →
      (∀ i, 1 ≤ i → i < k →
        ∃ ei, ops i = some ei ∧ isRetriable cfg ei = true) →
      ops k = some e → isRetriable cfg e = false →
      (doGo cfg ops rands).outcome = .nonRetriableErr e ∧
      (doGo cfg ops rands).calls = k) ∧
    (∀ (cfg : RetryConfig) (ops : Nat → Option GoErr) (rands : Nat → ℚ),
      1 ≤ cfg.maxAttempts →
      (∀ i, 1 ≤ i → i ≤ cfg.maxAttempts →
        ∃ ei, ops i = some ei ∧ isRetriable cfg ei = true) →
      (doGo cfg ops rands).outcome =
        .exhausted cfg.maxAttempts (ops cfg.maxAttempts) ∧
      (doGo cfg ops rands).calls = cfg.maxAttempts) := by
  constructor
  · intro cfg ops rands k e hk1 hk2 hprev hop hnr
    have hfuel : cfg.maxAttempts - 1 + 1 = cfg.maxAttempts := by omega
    have h := doLoop_nonretriable cfg ops rands (cfg.maxAttempts - 1) 1 k e
      (by omega) hk1 hk2 hprev hop hnr
    rw [hfuel] at h
    unfold doGo
    refine ⟨h.1, ?_⟩
    rw [h.2]
    omega
  · intro cfg ops rands hm hall
    have hfuel : cfg.maxAttempts - 1 + 1 = cfg.maxAttempts := by omega
    have h := doLoop_exhausted cfg ops rands (cfg.maxAttempts - 1) 1
      (by omega) (le_refl _) hall
    rw [hfuel] at h
    unfold doGo
    exact h

def cfgW8 : RetryConfig :=
  { maxAttempts := 3, initialDelay := 1, maxDelay := 10, backoffFactor := 2,
    jitter := false, retriableErrors := [], retriableStatuses := [500] }

def opsW8 : Nat → Option GoErr := fun i =>
  if i = 1 then some (GoErr.http 500 "Internal Server Error" "u")
  else some (GoErr.http 404 "Not Found" "u")

/-- Witness for C8: a retriable 500 on attempt 1 followed by a non-retriable
404 on attempt 2 stops the retryer after exactly two invocations. -/
theorem c8_witness :
    (doGo cfgW8 opsW8 (fun _ => 0)).outcome =
      DoOutcome.nonRetriableErr (GoErr.http 404 "Not Found" "u") ∧
    (doGo cfgW8 opsW8 (fun _ => 0)).calls = 2 :=
  c8_do_error_handling.1 cfgW8 opsW8 (fun _ => 0) 2
    (GoErr.http 404 "Not Found" "u") (by decide) (by decide)
    (fun i h1 h2 => by
      have hi : i = 1 := by omega
      subst hi
      exact ⟨GoErr.http 500 "Internal Server Error" "u", by decide, by decide⟩)
    (by decide) (by decide)
